import Mathlib

/-!
Verification of the control-plane code of the Compass VS Code extension:
the CompassClient JSON-RPC process channel (client source file) and the
pseudo-terminal bridge (extension source file), embedded shallowly as a
state machine over event traces, plus a spec-modelled collaboration
handshake for the network transport that is not part of the extension
sources.
-/

namespace Compass

/-- Minimal JSON value payload, enough to carry a Response result. -/
inductive Json where
  | jnull : Json
  | jnum : Int → Json
  | jstr : String → Json
  deriving DecidableEq, Repr

/-- Shape of a successfully JSON-parsed line as the reader handler inspects
it: the fields id, method, params.output (none when params or output is
absent), error.message (none when error is absent or falsy), and result.
This mirrors exactly the projections the handler reads. -/
structure Msg where
  id : Option Nat
  method : Option String
  output : Option String
  error : Option String
  result : Json
  deriving DecidableEq, Repr

/-- Truthiness of the id field as JavaScript evaluates it on a JSON-RPC
integer id: absent or zero is falsy. -/
def idTruthy : Option Nat → Bool
  | some n => n != 0
  | none => false

/-- Truthiness of params.output: absent or the empty string is falsy. -/
def outputTruthy : Option String → Bool
  | some s => s != ""
  | none => false

/-- Outcome of one raw line read by the readline interface: blank after
trim, a JSON.parse failure, or a parsed message. -/
inductive RawLine where
  | blank : RawLine
  | malformed : RawLine
  | parsed : Msg → RawLine
  deriving DecidableEq, Repr

/-- Settled state of one sendRequest promise. -/
inductive Outcome where
  | resolved : Json → Outcome
  | rejected : String → Outcome
  deriving DecidableEq, Repr

/-- Events that drive one CompassClient instance after a successful start:
a sendRequest call, one line from the worker, the 5 second timer of a given
request id firing, a dispose call, and the worker process exiting. -/
inductive Event where
  | send : Event
  | line : RawLine → Event
  | timerFire : Nat → Event
  | dispose : Event
  | workerExit : Int → Event
  deriving DecidableEq, Repr

/-- State of one CompassClient instance. The fields processAlive, rpcId and
pending transcribe the class fields process, rpcId and pendingRequests (a
pending callback is determined by its id, so the map is kept as the list of
registered ids). The fields settled, logs, allocated, reports and exitCode
are observation history: promise outcomes per id, onLog firings, the ids
handed out by rpcId in order, console error reports for unparsable lines,
and the recorded worker exit code. -/
structure ClientState where
  processAlive : Bool
  rpcId : Nat
  pending : List Nat
  settled : List (Nat × Outcome)
  logs : List String
  allocated : List Nat
  reports : Nat
  exitCode : Option Int
  deriving DecidableEq, Repr

/-- State right after a successful start: rpcId initialised to 1, no
pending request, live process. -/
def initState : ClientState :=
  { processAlive := true, rpcId := 1, pending := [], settled := [],
    logs := [], allocated := [], reports := 0, exitCode := none }

/-- Settling a pending callback with a parsed response: a truthy error
rejects with the error message, otherwise the promise resolves with the
result field. -/
def settleOutcome (m : Msg) : Outcome :=
  match m.error with
  | some msg => Outcome.rejected msg
  | none => Outcome.resolved m.result

/-- Reader handler for one parsed line. First the notification branch: no
truthy id, method log, truthy output fires onLog and returns. Otherwise a
truthy id registered in pendingRequests invokes and removes its callback.
Anything else falls through with no effect. -/
def lineStep (s : ClientState) (m : Msg) : ClientState :=
  if idTruthy m.id = false ∧ m.method = some "log" ∧ outputTruthy m.output = true then
    { s with logs := s.logs ++ [m.output.getD ""] }
  else if idTruthy m.id = true ∧ m.id.getD 0 ∈ s.pending then
    { s with pending := s.pending.erase (m.id.getD 0),
             settled := s.settled ++ [(m.id.getD 0, settleOutcome m)] }
  else s

/-- Transition function of the client, one event at a time.

A send with a dead process rejects immediately without allocating an id, so
it leaves the tracked state unchanged. A live send allocates id = rpcId,
increments rpcId, writes the request line and registers the pending
callback together with its timer. A blank line is skipped; a line that
fails JSON.parse is reported on the console and dropped; a parsed line goes
through lineStep. A timer firing for an id still pending removes it and
rejects with the timeout message; for an id no longer pending it does
nothing. Dispose kills the process and clears the process field, touching
nothing else; a second dispose finds no process. A worker exit has no
registered handler in the client, so it only records the exit code. -/
def step (s : ClientState) (e : Event) : ClientState :=
  match e with
  | Event.send =>
      if s.processAlive then
        { s with rpcId := s.rpcId + 1,
                 pending := s.pending ++ [s.rpcId],
                 allocated := s.allocated ++ [s.rpcId] }
      else s
  | Event.line RawLine.blank => s
  | Event.line RawLine.malformed => { s with reports := s.reports + 1 }
  | Event.line (RawLine.parsed m) => lineStep s m
  | Event.timerFire i =>
      if i ∈ s.pending then
        { s with pending := s.pending.erase i,
                 settled := s.settled ++ [(i, Outcome.rejected "Request timed out")] }
      else s
  | Event.dispose =>
      if s.processAlive then { s with processAlive := false } else s
  | Event.workerExit c => { s with exitCode := some c }

/-- Run of the client over a trace of events from the started state. -/
def run (es : List Event) : ClientState :=
  List.foldl step initState es

/-- Reachability invariant: rpcId is at least 1, the allocated ids are
exactly 1, 2, ..., rpcId - 1 in order, pending ids are unique allocated
ids, and settled ids were allocated. -/
def Inv (s : ClientState) : Prop :=
  1 ≤ s.rpcId ∧
  s.allocated = List.range' 1 (s.rpcId - 1) ∧
  s.pending.Nodup ∧
  (∀ i ∈ s.pending, 1 ≤ i ∧ i < s.rpcId) ∧
  (∀ p ∈ s.settled, 1 ≤ p.1 ∧ p.1 < s.rpcId)

/-- Effect of one pseudo-terminal input chunk on the active worker: the
interrupt chunk is handled locally, a lone carriage return is echoed as a
newline pair and written as a newline, any other chunk is echoed and
written as is; with no active process the chunk is dropped. -/
inductive PtyAction where
  | interrupt : PtyAction
  | forward : String → String → PtyAction
  | ignored : PtyAction
  deriving DecidableEq, Repr

/-- Input handler of the pseudo-terminal, transcribed from the extension:
active abbreviates the guard that an unkilled active process with an open
stdin exists. The first forward argument is what is echoed back to the
terminal, the second is what is written to the worker stdin. -/
def handleInput (active : Bool) (data : String) : PtyAction :=
  if active then
    if data = "\x03" then PtyAction.interrupt
    else if data = "\r" then PtyAction.forward "\r\n" "\n"
    else PtyAction.forward data data
  else PtyAction.ignored

/-- Bytes an action writes to the worker stdin: the interrupt branch
returns before any write, so it writes nothing. -/
def actionWrites : PtyAction → List String
  | PtyAction.interrupt => []
  | PtyAction.forward _ w => [w]
  | PtyAction.ignored => []

/-- Whether the action kills the worker process. -/
def actionKills : PtyAction → Bool
  | PtyAction.interrupt => true
  | _ => false

/-- Bytes an action echoes to the driver terminal. -/
def actionEcho : PtyAction → List String
  | PtyAction.interrupt => ["^C\r\n"]
  | PtyAction.forward e _ => [e]
  | PtyAction.ignored => []

/-- Global replacement of a newline by a carriage return plus newline,
the chunk transformation data.toString().replace of newlines used on every
output path, on the chunk as a character list. -/
def normalizeNewlines : List Char → List Char
  | [] => []
  | c :: rest =>
      if c = '\n' then '\r' :: '\n' :: normalizeNewlines rest
      else c :: normalizeNewlines rest

/-- ANSI escape prefix the stderr handler prepends (red foreground). -/
def redCode : List Char := ['\x1b', '[', '3', '1', 'm']

/-- ANSI escape suffix the stderr handler appends (reset). -/
def resetCode : List Char := ['\x1b', '[', '0', 'm']

/-- Chunk fired to the terminal by the stdout data handler of
runInCompassTerminal: line-ending normalization only. -/
def stdoutFired (data : List Char) : List Char :=
  normalizeNewlines data

/-- Chunk fired to the terminal by the stderr data handler of
runInCompassTerminal: the normalized chunk wrapped in red escape codes. -/
def stderrFired (data : List Char) : List Char :=
  redCode ++ normalizeNewlines data ++ resetCode

/-- Chunk fired to the terminal by the onLog subscriber in the extension:
line-ending normalization only. -/
def onLogFired (data : List Char) : List Char :=
  normalizeNewlines data

/-- Modelled from the spec: the session snapshot a newly admitted Guest
receives (current step index, all step statuses, a fresh sequence number).
The collaboration session implementation is not among the extension
sources; only the spec describes it. -/
structure SessionSnapshot where
  stepIndex : Nat
  statuses : List String
  seq : Nat
  deriving DecidableEq, Repr

/-- Modelled from the spec: outcome of the peer handshake of a
Collaboration Session. -/
inductive HandshakeOutcome where
  | certMismatchAbort : HandshakeOutcome
  | authFailedClose : HandshakeOutcome
  | admittedGuest : SessionSnapshot → HandshakeOutcome
  deriving DecidableEq, Repr

/-- Modelled from the spec: the peer handshake of a Collaboration Session.
The peer compares the digest of the certificate the server actually
presented byte for byte with the digest embedded in the join token; any
mismatch aborts the connection before any application data is exchanged.
Only after transport validation is the PIN checked; a wrong PIN closes the
socket with an authentication failure; on success the peer is admitted
with role Guest and receives the state snapshot. -/
def peerHandshake (presentedDigest tokenDigest : List Nat)
    (pin hostPin : String) (snap : SessionSnapshot) : HandshakeOutcome :=
  if presentedDigest = tokenDigest then
    if pin = hostPin then HandshakeOutcome.admittedGuest snap
    else HandshakeOutcome.authFailedClose
  else HandshakeOutcome.certMismatchAbort

/-- Truthy id fields are exactly the nonzero present ids. -/
theorem idTruthy_eq (o : Option Nat) (h : idTruthy o = true) :
    o = some (o.getD 0) ∧ o.getD 0 ≠ 0 := by
  cases o with
  | none => simp [idTruthy] at h
  | some n => simp [idTruthy] at h ⊢; exact h

/-- Resolved settle outcomes come from error-free responses and carry the
result field. -/
theorem settleOutcome_eq_resolved (m : Msg) (v : Json)
    (h : settleOutcome m = Outcome.resolved v) :
    m.error = none ∧ m.result = v := by
  unfold settleOutcome at h
  cases he : m.error with
  | some msg => rw [he] at h; exact absurd h (by simp)
  | none => rw [he] at h; injection h with hr; exact ⟨rfl, hr⟩

/-- Preservation of the reachability invariant by one step. -/
theorem inv_step (s : ClientState) (e : Event) (h : Inv s) : Inv (step s e) := by
  obtain ⟨h1, h2, h3, h4, h5⟩ := h
  cases e with
  | send =>
    simp only [step]
    split
    · refine ⟨?_, ?_, ?_, ?_, ?_⟩
      · show 1 ≤ s.rpcId + 1
        omega
      · show s.allocated ++ [s.rpcId] = List.range' 1 (s.rpcId + 1 - 1)
        have e1 : s.rpcId + 1 - 1 = (s.rpcId - 1) + 1 := by omega
        rw [e1, List.range'_concat, h2]
        have e2 : 1 + 1 * (s.rpcId - 1) = s.rpcId := by omega
        rw [e2]
      · show (s.pending ++ [s.rpcId]).Nodup
        rw [List.nodup_append]
        refine ⟨h3, List.nodup_singleton _, ?_⟩
        intro i hi hmem
        have := h4 i hi
        simp at hmem
        omega
      · intro i hi
        have hi2 : i ∈ s.pending ++ [s.rpcId] := hi
        show 1 ≤ i ∧ i < s.rpcId + 1
        rcases List.mem_append.1 hi2 with hm | hm
        · have := h4 i hm; omega
        · simp at hm; omega
      · intro p hp
        have hp2 : p ∈ s.settled := hp
        have := h5 p hp2
        show 1 ≤ p.1 ∧ p.1 < s.rpcId + 1
        omega
    · exact ⟨h1, h2, h3, h4, h5⟩
  | line l =>
    cases l with
    | blank => exact ⟨h1, h2, h3, h4, h5⟩
    | malformed => exact ⟨h1, h2, h3, h4, h5⟩
    | parsed m =>
      simp only [step, lineStep]
      split
      · exact ⟨h1, h2, h3, h4, h5⟩
      · split
        · rename_i hc
          refine ⟨h1, h2, List.Nodup.erase _ h3, ?_, ?_⟩
          · intro i hi
            exact h4 i (List.mem_of_mem_erase hi)
          · intro p hp
            rcases List.mem_append.1 hp with hm | hm
            · exact h5 p hm
            · have hm2 : p = (m.id.getD 0, settleOutcome m) := by simpa using hm
              subst hm2
              exact h4 _ hc.2
        · exact ⟨h1, h2, h3, h4, h5⟩
  | timerFire i =>
    simp only [step]
    split
    · rename_i hc
      refine ⟨h1, h2, List.Nodup.erase _ h3, ?_, ?_⟩
      · intro j hj
        exact h4 j (List.mem_of_mem_erase hj)
      · intro p hp
        rcases List.mem_append.1 hp with hm | hm
        · exact h5 p hm
        · have hm2 : p = (i, Outcome.rejected "Request timed out") := by simpa using hm
          subst hm2
          exact h4 _ hc
    · exact ⟨h1, h2, h3, h4, h5⟩
  | dispose =>
    simp only [step]
    split
    · exact ⟨h1, h2, h3, h4, h5⟩
    · exact ⟨h1, h2, h3, h4, h5⟩
  | workerExit c => exact ⟨h1, h2, h3, h4, h5⟩

/-- Preservation of the invariant by a whole trace. -/
theorem inv_foldl (es : List Event) (s : ClientState) (h : Inv s) :
    Inv (List.foldl step s es) := by
  induction es generalizing s with
  | nil => exact h
  | cons e rest ih => exact ih _ (inv_step s e h)

/-- The started state satisfies the invariant. -/
theorem inv_init : Inv initState := by
  refine ⟨le_refl 1, by simp [initState], by simp [initState], ?_, ?_⟩ <;>
    simp [initState]

/-- Every reachable client state satisfies the invariant. -/
theorem inv_run (es : List Event) : Inv (run es) :=
  inv_foldl es initState inv_init

/-- Consecutive integer ranges are strictly increasing as chains. -/
theorem chain_lt_range' (a n : Nat) :
    List.Chain' (fun x y => x < y) (List.range' a n) := by
  induction n generalizing a with
  | zero => simp
  | succ k ih =>
    rw [List.range'_succ]
    rcases k with _ | k2
    · simp
    · rw [List.chain'_cons']
      refine ⟨?_, ?_⟩
      · intro y hy
        rw [List.range'_succ] at hy
        simp at hy
        omega
      · exact ih (a + 1)

/-- Origin of a resolved settle entry produced by one step: either it was
already settled, or this event was a parsed response line whose id and
result match it. -/
theorem step_settled_resolved (s : ClientState) (e : Event) (i : Nat) (v : Json)
    (h : (i, Outcome.resolved v) ∈ (step s e).settled) :
    (i, Outcome.resolved v) ∈ s.settled ∨
      ∃ m : Msg, e = Event.line (RawLine.parsed m) ∧ m.id = some i ∧ i ≠ 0 ∧
        m.error = none ∧ m.result = v := by
  cases e with
  | send =>
    left
    simp only [step] at h
    split at h <;> simpa using h
  | line l =>
    cases l with
    | blank => exact Or.inl h
    | malformed => exact Or.inl (by simpa using h)
    | parsed m =>
      simp only [step, lineStep] at h
      split at h
      · exact Or.inl (by simpa using h)
      · split at h
        · rename_i hc
          rcases List.mem_append.1 h with hm | hm
          · exact Or.inl hm
          · have hm2 : (i, Outcome.resolved v) = (m.id.getD 0, settleOutcome m) := by
              simpa using hm
            injection hm2 with hi ho
            obtain ⟨hsome, hne⟩ := idTruthy_eq m.id hc.1
            obtain ⟨herr, hres⟩ := settleOutcome_eq_resolved m v ho.symm
            right
            refine ⟨m, rfl, ?_, ?_, herr, hres⟩
            · rw [hsome, ← hi]
            · rw [hi]; exact hne
        · exact Or.inl h
  | timerFire j =>
    left
    simp only [step] at h
    split at h
    · rcases List.mem_append.1 h with hm | hm
      · exact hm
      · simp at hm
    · exact h
  | dispose =>
    left
    simp only [step] at h
    split at h <;> simpa using h
  | workerExit c => exact Or.inl (by simpa using h)

/-- Origin of a resolved settle entry over a whole trace. -/
theorem foldl_settled_resolved (es : List Event) (s : ClientState) (i : Nat)
    (v : Json)
    (h : (i, Outcome.resolved v) ∈ (List.foldl step s es).settled) :
    (i, Outcome.resolved v) ∈ s.settled ∨
      ∃ m : Msg, Event.line (RawLine.parsed m) ∈ es ∧ m.id = some i ∧ i ≠ 0 ∧
        m.error = none ∧ m.result = v := by
  induction es generalizing s with
  | nil => exact Or.inl h
  | cons e rest ih =>
    rcases ih (step s e) h with h1 | ⟨m, hm, hrest⟩
    · rcases step_settled_resolved s e i v h1 with h2 | ⟨m, he, hrest⟩
      · exact Or.inl h2
      · subst he
        exact Or.inr ⟨m, List.mem_cons_self _ _, hrest⟩
    · exact Or.inr ⟨m, List.mem_cons_of_mem e hm, hrest⟩

/-- Chunks without a newline pass through newline normalization unchanged. -/
theorem normalizeNewlines_no_newline (l : List Char) (h : '\n' ∉ l) :
    normalizeNewlines l = l := by
  induction l with
  | nil => rfl
  | cons c t ih =>
    have h1 : ¬ c = '\n' := fun hc => h (by rw [← hc]; exact List.mem_cons_self _ _)
    have h2 : '\n' ∉ t := fun ht => h (List.mem_cons_of_mem _ ht)
    rw [normalizeNewlines, if_neg h1, ih h2]

/-- Claim C1: every call settled as resolved got exactly the result field
of a Response line whose id equals the id allocated for that call, whatever
the arrival order of Response lines; a resolved outcome can never come from
a Response with a different id. -/
theorem sendRequest_resolves_with_matching_response (es : List Event) (i : Nat)
    (v : Json) (h : (i, Outcome.resolved v) ∈ (run es).settled) :
    ∃ m : Msg, Event.line (RawLine.parsed m) ∈ es ∧ m.id = some i ∧ i ≠ 0 ∧
      m.error = none ∧ m.result = v ∧ i ∈ (run es).allocated := by
  obtain ⟨hr1, hr2, hr3, hr4, hr5⟩ := inv_run es
  have hb := hr5 (i, Outcome.resolved v) h
  have halloc : i ∈ (run es).allocated := by
    rw [hr2, List.mem_range'_1]
    omega
  rcases foldl_settled_resolved es initState i v h with h1 | ⟨m, hm, hid, hi0, herr, hres⟩
  · simp [initState] at h1
  · exact ⟨m, hm, hid, hi0, herr, hres, halloc⟩

/-- Witness for C1 on a concrete out-of-order trace: two calls whose
Responses arrive in reverse send order, the first call resolving with the
Response carrying id 1. -/
theorem sendRequest_resolves_with_matching_response_witness :
    ∃ m : Msg,
      Event.line (RawLine.parsed m) ∈
        [Event.send, Event.send,
         Event.line (RawLine.parsed (Msg.mk (some 2) none none none (Json.jstr "b"))),
         Event.line (RawLine.parsed (Msg.mk (some 1) none none none (Json.jstr "a")))] ∧
      m.id = some 1 ∧ 1 ≠ 0 ∧ m.error = none ∧ m.result = Json.jstr "a" ∧
      1 ∈ (run
        [Event.send, Event.send,
         Event.line (RawLine.parsed (Msg.mk (some 2) none none none (Json.jstr "b"))),
         Event.line (RawLine.parsed (Msg.mk (some 1) none none none (Json.jstr "a")))]).allocated :=
  sendRequest_resolves_with_matching_response _ 1 (Json.jstr "a") (by decide)

/-- Claim C2: when the timer of a pending call fires, that call settles as
rejected with the timeout message and only that call leaves the pending
set; a Response with the same id arriving after expiry changes nothing at
all, so it resolves no promise and touches no other pending call. -/
theorem call_timeout_then_late_response_discarded (s : ClientState) (i : Nat)
    (m : Msg) (hp : i ∈ s.pending) (hnd : s.pending.Nodup)
    (hm : m.id = some i) (hi : i ≠ 0) :
    (step s (Event.timerFire i)).settled
        = s.settled ++ [(i, Outcome.rejected "Request timed out")] ∧
    (step s (Event.timerFire i)).pending = s.pending.erase i ∧
    step (step s (Event.timerFire i)) (Event.line (RawLine.parsed m))
        = step s (Event.timerFire i) := by
  have h1 : step s (Event.timerFire i)
      = { s with pending := s.pending.erase i,
                 settled := s.settled ++ [(i, Outcome.rejected "Request timed out")] } := by
    simp [step, hp]
  have hidt : idTruthy m.id = true := by
    rw [hm]; simp [idTruthy]; exact hi
  refine ⟨by rw [h1], by rw [h1], ?_⟩
  rw [h1]
  show lineStep _ m = _
  unfold lineStep
  rw [if_neg, if_neg]
  · rintro ⟨-, hmem⟩
    rw [hm] at hmem
    simp at hmem
    exact List.Nodup.not_mem_erase hnd hmem
  · rintro ⟨hf, -, -⟩
    exact Bool.noConfusion (hidt.symm.trans hf)

/-- Witness for C2: one pending call whose timer fires, then its late
Response arrives and is discarded. -/
theorem call_timeout_then_late_response_discarded_witness :
    (step (run [Event.send]) (Event.timerFire 1)).settled
        = (run [Event.send]).settled ++ [(1, Outcome.rejected "Request timed out")] ∧
    (step (run [Event.send]) (Event.timerFire 1)).pending
        = (run [Event.send]).pending.erase 1 ∧
    step (step (run [Event.send]) (Event.timerFire 1))
        (Event.line (RawLine.parsed (Msg.mk (some 1) none none none Json.jnull)))
        = step (run [Event.send]) (Event.timerFire 1) :=
  call_timeout_then_late_response_discarded (run [Event.send]) 1
    (Msg.mk (some 1) none none none Json.jnull)
    (by decide) (by decide) (by decide) (by decide)

/-- Counterexample to claim C3: with one pending call, dispose terminates
the worker but rejects nothing; the call stays pending with no settled
outcome at all, instead of being rejected with a channel-closed error. -/
theorem dispose_leaves_pending_call_unsettled :
    (run [Event.send, Event.dispose]).pending = [1] ∧
    (run [Event.send, Event.dispose]).settled = [] ∧
    (run [Event.send, Event.dispose]).processAlive = false := by decide

/-- Claim C3 as amended: dispose kills the worker process, clears the
process handle and is idempotent, but it rejects no pending call and does
not close the notification emitter; a call pending at dispose time stays
registered until its own 5 second timer rejects it with the timeout
message. -/
theorem dispose_kills_worker_only_and_idempotent (s : ClientState) :
    (step s Event.dispose).processAlive = false ∧
    (step s Event.dispose).pending = s.pending ∧
    (step s Event.dispose).settled = s.settled ∧
    (step s Event.dispose).logs = s.logs ∧
    step (step s Event.dispose) Event.dispose = step s Event.dispose ∧
    ∀ i ∈ s.pending,
      (step (step s Event.dispose) (Event.timerFire i)).settled
        = s.settled ++ [(i, Outcome.rejected "Request timed out")] := by
  obtain ⟨pa, rid, pend, setl, lg, alloc, rep, ec⟩ := s
  cases pa <;>
    refine ⟨by simp [step], by simp [step], by simp [step], by simp [step],
      by simp [step], ?_⟩ <;>
    (intro i hi; simp [step, hi])

/-- Witness for C3 as amended: the pending call survives dispose and its
timer then rejects it with the timeout message. -/
theorem dispose_kills_worker_only_and_idempotent_witness :
    (step (step (run [Event.send]) Event.dispose) (Event.timerFire 1)).settled
        = (run [Event.send]).settled ++ [(1, Outcome.rejected "Request timed out")] ∧
    (step (run [Event.send]) Event.dispose).processAlive = false :=
  ⟨(dispose_kills_worker_only_and_idempotent (run [Event.send])).2.2.2.2.2 1 (by decide),
   (dispose_kills_worker_only_and_idempotent (run [Event.send])).1⟩

/-- Counterexample to claim C4: the client registers no handler for an
unexpected worker exit after start, so an exit with one call pending
rejects nothing; the call stays pending with no settled outcome carrying a
process-exited error. -/
theorem worker_exit_leaves_pending_call_unsettled :
    (run [Event.send, Event.workerExit 1]).pending = [1] ∧
    (run [Event.send, Event.workerExit 1]).settled = [] := by decide

/-- Claim C4 as amended: an unexpected worker exit leaves every pending
call untouched, with no process-exited rejection and no notification
stream closure; a caller is nevertheless not left waiting indefinitely
because each pending call is rejected by its own 5 second timer with the
timeout message. -/
theorem worker_exit_unhandled_timer_bounds_wait (s : ClientState) (c : Int) :
    (step s (Event.workerExit c)).pending = s.pending ∧
    (step s (Event.workerExit c)).settled = s.settled ∧
    (step s (Event.workerExit c)).logs = s.logs ∧
    ∀ i ∈ s.pending,
      (step (step s (Event.workerExit c)) (Event.timerFire i)).settled
        = s.settled ++ [(i, Outcome.rejected "Request timed out")] := by
  refine ⟨rfl, rfl, rfl, ?_⟩
  intro i hi
  simp [step, hi]

/-- Witness for C4 as amended: after a worker exit the pending call is
still pending and its timer settles it with the timeout rejection. -/
theorem worker_exit_unhandled_timer_bounds_wait_witness :
    (step (step (run [Event.send]) (Event.workerExit 9)) (Event.timerFire 1)).settled
        = (run [Event.send]).settled ++ [(1, Outcome.rejected "Request timed out")] ∧
    (step (run [Event.send]) (Event.workerExit 9)).pending = (run [Event.send]).pending :=
  ⟨(worker_exit_unhandled_timer_bounds_wait (run [Event.send]) 9).2.2.2 1 (by decide),
   (worker_exit_unhandled_timer_bounds_wait (run [Event.send]) 9).1⟩

/-- Claim C5: a peer whose computed digest of the presented certificate
differs from the digest embedded in the join token is aborted before any
application data, so it never receives a session snapshot, even when it
holds the correct PIN. -/
theorem cert_digest_mismatch_blocks_session_state (presented tokenDigest : List Nat)
    (pin hostPin : String) (snap : SessionSnapshot)
    (h : presented ≠ tokenDigest) :
    peerHandshake presented tokenDigest pin hostPin snap
        = HandshakeOutcome.certMismatchAbort ∧
    ∀ s2 : SessionSnapshot,
      peerHandshake presented tokenDigest pin hostPin snap
        ≠ HandshakeOutcome.admittedGuest s2 := by
  refine ⟨by simp [peerHandshake, h], ?_⟩
  intro s2
  simp [peerHandshake, h]

/-- Witness for C5: a one byte digest difference aborts the handshake even
though the PIN matches the host PIN. -/
theorem cert_digest_mismatch_blocks_session_state_witness :
    peerHandshake [0, 1] [0, 2] "1234" "1234" (SessionSnapshot.mk 0 [] 0)
        = HandshakeOutcome.certMismatchAbort :=
  (cert_digest_mismatch_blocks_session_state [0, 1] [0, 2] "1234" "1234"
    (SessionSnapshot.mk 0 [] 0) (by decide)).1

/-- Claim C6: a line that fails to parse is reported and dropped: the
report count grows by one, no pending call settles, no log fires, the
channel state is otherwise untouched, and the remaining lines of the trace
are processed exactly as they would be from the reported state. -/
theorem malformed_line_reported_and_dropped (s : ClientState) (es : List Event) :
    (step s (Event.line RawLine.malformed)).reports = s.reports + 1 ∧
    (step s (Event.line RawLine.malformed)).pending = s.pending ∧
    (step s (Event.line RawLine.malformed)).settled = s.settled ∧
    (step s (Event.line RawLine.malformed)).logs = s.logs ∧
    (step s (Event.line RawLine.malformed)).processAlive = s.processAlive ∧
    List.foldl step s (Event.line RawLine.malformed :: es)
      = List.foldl step { s with reports := s.reports + 1 } es :=
  ⟨rfl, rfl, rfl, rfl, rfl, rfl⟩

/-- Claim C7: on one client instance the allocated request ids are exactly
the consecutive integers from 1 in allocation order, hence strictly
increasing and never reused, and the pending set never holds an id twice. -/
theorem rpc_ids_strictly_increasing_no_reuse (es : List Event) :
    (run es).allocated = List.range' 1 ((run es).rpcId - 1) ∧
    List.Chain' (fun x y => x < y) ((run es).allocated) ∧
    (run es).pending.Nodup := by
  obtain ⟨h1, h2, h3, h4, h5⟩ := inv_run es
  exact ⟨h2, by rw [h2]; exact chain_lt_range' 1 ((run es).rpcId - 1), h3⟩

/-- Claim C8: with an active worker, the interrupt chunk is intercepted:
echoed as a caret C sequence, the worker killed, nothing written to the
worker stdin; a carriage return chunk is written as a newline; every other
chunk is written to the worker stdin exactly as received. -/
theorem pty_input_interrupt_and_forwarding (data : String) :
    handleInput true "\x03" = PtyAction.interrupt ∧
    actionWrites (handleInput true "\x03") = [] ∧
    actionKills (handleInput true "\x03") = true ∧
    actionEcho (handleInput true "\x03") = ["^C\r\n"] ∧
    handleInput true "\r" = PtyAction.forward "\r\n" "\n" ∧
    actionWrites (handleInput true "\r") = ["\n"] ∧
    (data ≠ "\x03" → data ≠ "\r" →
      handleInput true data = PtyAction.forward data data ∧
      actionWrites (handleInput true data) = [data]) := by
  refine ⟨by decide, by decide, by decide, by decide, by decide, by decide, ?_⟩
  intro h1 h2
  have hdef : handleInput true data
      = if data = "\x03" then PtyAction.interrupt
        else if data = "\r" then PtyAction.forward "\r\n" "\n"
        else PtyAction.forward data data := rfl
  rw [hdef, if_neg h1, if_neg h2]
  exact ⟨rfl, rfl⟩

/-- Witness for C8 on an ordinary chunk: it is forwarded byte for byte. -/
theorem pty_input_interrupt_and_forwarding_witness :
    handleInput true "ls" = PtyAction.forward "ls" "ls" ∧
    actionWrites (handleInput true "ls") = ["ls"] :=
  (pty_input_interrupt_and_forwarding "ls").2.2.2.2.2.2 (by decide) (by decide)

/-- Counterexample to claim C9: a stderr chunk is not forwarded with only
newline normalization; the handler wraps it in red color escape codes, so
the fired bytes differ from the normalized chunk. -/
theorem stderr_chunk_not_verbatim :
    stderrFired ['e', '\n'] ≠ normalizeNewlines ['e', '\n'] := by decide

/-- Claim C9 as amended: stdout chunks and onLog chunks are forwarded with
only the newline to carriage return newline replacement, so chunks without
a newline, in particular escape sequences, pass through byte for byte;
stderr chunks get the same normalization but are additionally wrapped in a red
escape prefix and a reset suffix, the bytes of the chunk itself unmodified
inside the wrapper. -/
theorem output_chunk_forwarding_normalized (data : List Char) :
    stdoutFired data = normalizeNewlines data ∧
    onLogFired data = normalizeNewlines data ∧
    stderrFired data = redCode ++ normalizeNewlines data ++ resetCode ∧
    ('\n' ∉ data →
      stdoutFired data = data ∧
      stderrFired data = redCode ++ data ++ resetCode) := by
  refine ⟨rfl, rfl, rfl, ?_⟩
  intro h
  rw [stdoutFired, stderrFired, normalizeNewlines_no_newline data h]
  exact ⟨rfl, rfl⟩

/-- Witness for C9 as amended: a color escape sequence chunk passes
through stdout unmodified and through stderr unmodified inside the red
wrapper. -/
theorem output_chunk_forwarding_normalized_witness :
    stdoutFired ['\x1b', '[', '3', '2', 'm'] = ['\x1b', '[', '3', '2', 'm'] ∧
    stderrFired ['\x1b', '[', '3', '2', 'm']
        = redCode ++ ['\x1b', '[', '3', '2', 'm'] ++ resetCode :=
  (output_chunk_forwarding_normalized ['\x1b', '[', '3', '2', 'm']).2.2.2 (by decide)

/-- Claim C10: onLog fires with the output value exactly for parsed lines
with a falsy id, method log and a truthy output; any line failing one of
these leaves the log stream unchanged, and a log notification whose output
is the empty string leaves the whole state unchanged. -/
theorem onLog_fires_iff_log_with_truthy_output (s : ClientState) (m : Msg) :
    (∀ o : String, m.output = some o → o ≠ "" → idTruthy m.id = false →
      m.method = some "log" →
      (step s (Event.line (RawLine.parsed m))).logs = s.logs ++ [o]) ∧
    (idTruthy m.id = true ∨ m.method ≠ some "log" ∨ m.output = none ∨
        m.output = some "" →
      (step s (Event.line (RawLine.parsed m))).logs = s.logs) ∧
    (∀ er : Option String, ∀ r : Json,
      step s (Event.line (RawLine.parsed (Msg.mk none (some "log") (some "") er r))) = s) := by
  refine ⟨?_, ?_, ?_⟩
  · intro o ho hne hid hmeth
    have hout : outputTruthy m.output = true := by
      rw [ho]; simp [outputTruthy]; exact hne
    show (lineStep s m).logs = s.logs ++ [o]
    unfold lineStep
    rw [if_pos ⟨hid, hmeth, hout⟩]
    simp [ho]
  · intro hcase
    show (lineStep s m).logs = s.logs
    unfold lineStep
    split
    · rename_i hcond
      exfalso
      obtain ⟨hf, hm2, ho2⟩ := hcond
      rcases hcase with h | h | h | h
      · exact Bool.noConfusion (h.symm.trans hf)
      · exact h hm2
      · rw [h] at ho2; simp [outputTruthy] at ho2
      · rw [h] at ho2; simp [outputTruthy] at ho2
    · split
      · rfl
      · rfl
  · intro er r
    show lineStep s (Msg.mk none (some "log") (some "") er r) = s
    unfold lineStep
    rw [if_neg (by simp [idTruthy, outputTruthy]), if_neg (by simp [idTruthy])]

/-- Witness for C10: a log notification with nonempty output fires onLog,
and one with empty output leaves the state untouched. -/
theorem onLog_fires_iff_log_with_truthy_output_witness :
    (step initState (Event.line (RawLine.parsed
        (Msg.mk none (some "log") (some "hi") none Json.jnull)))).logs
      = initState.logs ++ ["hi"] ∧
    step initState (Event.line (RawLine.parsed
        (Msg.mk none (some "log") (some "") none Json.jnull))) = initState :=
  ⟨(onLog_fires_iff_log_with_truthy_output initState
      (Msg.mk none (some "log") (some "hi") none Json.jnull)).1
      "hi" rfl (by decide) (by decide) rfl,
   (onLog_fires_iff_log_with_truthy_output initState
      (Msg.mk none (some "log") (some "") none Json.jnull)).2.2 none Json.jnull⟩

end Compass
